import Mathlib

/-!
Verification of the ctrm compile-time register machine (ctrm.hpp) against its
natural-language specification.  The C++ source is shallowly embedded: the
instruction data model, the executor loop `program::exec`, the recursive-descent
routines of `class parser`, and the capacity scanner `impl::getMaxArgs` are
translated into executable Lean definitions.  The parser position (`current`
index into the `string_view`) is represented by the remaining suffix of the
character list; reading the character at the end of input yields the string
literal terminator NUL, exactly as `input[current]` does on a literal-backed
`string_view` at `current == size`.  `std::size_t` arithmetic is modelled as
Nat with explicit reduction mod 2^64, and register values of an unsigned
`IntType` of bit width W as Nat mod 2^W.  Evaluation inside `consteval` that
would not be a constant expression (a call to the non-constexpr `error`
function, or an out-of-bounds array read) is modelled as an explicit error
outcome.
-/

namespace Ctrm

/-- The NUL character that terminates the string literal backing the
`string_view`; `input[current]` at `current == size` reads it. -/
def CHAR0 : Char := Char.ofNat 0

/-- Modulus of `std::size_t` arithmetic (64-bit). -/
def SIZE_T : Nat := 2 ^ 64

/-- `std::numeric_limits<std::size_t>::max()`, the sentinel stored in unused
location fields by the `instruction` constructors (ctrm.hpp lines 61, 70-71). -/
def SIZE_MAX : Nat := 2 ^ 64 - 1

/-- `impl::instrType` (ctrm.hpp lines 27-32). -/
inductive instrType
  | HALT
  | INCR
  | DECR
deriving DecidableEq, Repr

/-- `impl::instruction` (ctrm.hpp lines 35-77). -/
structure instruction where
  type : instrType
  currentRegister : Nat
  location1 : Nat
  location2 : Nat
deriving DecidableEq, Repr

/-- The decrement-instruction constructor (ctrm.hpp lines 46-52). -/
def decrInstr (reg loc1 loc2 : Nat) : instruction :=
  ⟨.DECR, reg, loc1, loc2⟩

/-- The increment-instruction constructor (ctrm.hpp lines 57-63). -/
def incrInstr (reg loc1 : Nat) : instruction :=
  ⟨.INCR, reg, loc1, SIZE_MAX⟩

/-- The halt-instruction default constructor (ctrm.hpp lines 67-73). -/
def haltInstr : instruction :=
  ⟨.HALT, 0, SIZE_MAX, SIZE_MAX⟩

/-- State of the `program::exec` loop (ctrm.hpp lines 105-108): the register
array `values`, the program counter `loc`, and the `halt` flag. -/
structure execState where
  values : List Nat
  loc : Nat
  halt : Bool
deriving DecidableEq, Repr

/-- Result of one iteration of the `exec` loop body: either the next state, or
an out-of-bounds read of `instructions[loc]` (not a constant expression in the
consteval context, hence a compilation failure). -/
inductive stepResult
  | next (s : execState)
  | oob (loc : Nat)
deriving DecidableEq, Repr

/-- Outcome of running the `exec` loop: normal return of `values[0]`, an
out-of-bounds instruction read, or exhaustion of the modelling fuel (the C++
loop has no step bound and would simply keep running). -/
inductive execOutcome
  | ok (v : Nat)
  | oobRead (loc : Nat)
  | outOfFuel
deriving DecidableEq, Repr

/-- One iteration of the `while (!halt)` body of `program::exec`
(ctrm.hpp lines 110-139), for register width `W` and instruction table
`instrs` (whose length is the template parameter `instrCount`).  Reading
`instructions[loc]` out of bounds is surfaced as `.oob`; the dispatch on the
instruction type and the final `if (loc > instrCount) halt = true;` check
mirror the source. -/
def execStep (W : Nat) (instrs : List instruction) (s : execState) : stepResult :=
  match instrs[s.loc]? with
  | none => .oob s.loc
  | some cur =>
    match cur.type with
    | .HALT => .next { s with halt := true }
    | .INCR =>
      let v := (s.values.getD cur.currentRegister 0 + 1) % 2 ^ W
      .next { values := s.values.set cur.currentRegister v,
              loc := cur.location1,
              halt := decide (cur.location1 > instrs.length) }
    | .DECR =>
      if 0 < s.values.getD cur.currentRegister 0 then
        .next { values := s.values.set cur.currentRegister
                  (s.values.getD cur.currentRegister 0 - 1),
                loc := cur.location1,
                halt := decide (cur.location1 > instrs.length) }
      else
        .next { s with loc := cur.location2,
                       halt := decide (cur.location2 > instrs.length) }

/-- The `while (!halt)` loop of `program::exec` followed by
`return values[0];` (ctrm.hpp lines 110-141), with explicit fuel. -/
def execLoop (W : Nat) (instrs : List instruction) : Nat → execState → execOutcome
  | 0, _ => .outOfFuel
  | fuel + 1, s =>
    if s.halt then .ok (s.values.getD 0 0)
    else
      match execStep W instrs s with
      | .oob l => .oobRead l
      | .next s2 => execLoop W instrs fuel s2

/-- Initial register file of `exec` (ctrm.hpp line 105): the arguments are
converted to `IntType` (reduction mod 2^W models `static_cast<IntType>`) and
any remaining registers are value-initialised to zero. -/
def initRegs (W : Nat) (args : List Nat) (maxRegisters : Nat) : List Nat :=
  ((args.map fun a => a % 2 ^ W) ++ List.replicate (maxRegisters - args.length) 0).take
    maxRegisters

/-- `program::exec` (ctrm.hpp lines 103-142): run the loop from
`loc = 0`, `halt = false` on the initial register file. -/
def exec (W : Nat) (instrs : List instruction) (args : List Nat)
    (maxRegisters fuel : Nat) : execOutcome :=
  execLoop W instrs fuel { values := initRegs W args maxRegisters, loc := 0, halt := false }

/-- The parse errors raised through `ctrm::error` by the parser routines
(one constructor per distinct call site in ctrm.hpp), together with
`outOfBoundsRead`, which models an `input` read past the end of the literal's
backing array inside `parser::matchStr` — like an `error` call, such a read is
not a constant expression and aborts the consteval evaluation, so no program
value is produced. -/
inductive ParseErr
  | noNumber
  | unexpectedEof
  | expectedLineNumber
  | lineNumberMismatch
  | expectedColon
  | expectedPlusMinus
  | expectedArrow
  | expectedComma
  | missingTerminator
  | unexpectedChars
  | outOfBoundsRead
deriving DecidableEq, Repr

/-- Digit-accumulation loop of `parser::parseInt` (ctrm.hpp lines 210-232):
consume decimal digits, accumulating in `std::size_t` arithmetic, and stop at
end of input or at the first non-digit. -/
def parseIntAux : List Char → Nat → Nat × List Char
  | [], acc => (acc, [])
  | c :: rest, acc =>
    if c.isDigit then parseIntAux rest ((acc * 10 % SIZE_T + (c.toNat - 48)) % SIZE_T)
    else (acc, c :: rest)

/-- `parser::parseInt` (ctrm.hpp lines 205-233): an error if no digit is
present at the current position (end of input or a non-digit character),
otherwise the accumulated value and the rest of the input. -/
def parseInt (s : List Char) : Except ParseErr (Nat × List Char) :=
  match s with
  | [] => .error .noNumber
  | c :: _ => if c.isDigit then .ok (parseIntAux s 0) else .error .noNumber

/-- `parser::parseLineNumber` (ctrm.hpp lines 235-245): expect `L` followed by
an integer. -/
def parseLineNumber (s : List Char) : Except ParseErr (Nat × List Char) :=
  if s.isEmpty then .error .unexpectedEof
  else if s.headD CHAR0 = 'L' then parseInt (s.drop 1)
  else .error .expectedLineNumber

/-- `parser::skipSpaces` (ctrm.hpp lines 252-255). -/
def skipSpaces : List Char → List Char
  | [] => []
  | c :: rest => if c = '\t' ∨ c = ' ' then skipSpaces rest else c :: rest

/-- `parser::skipLinesAndSpaces` (ctrm.hpp lines 247-250). -/
def skipLinesAndSpaces : List Char → List Char
  | [] => []
  | c :: rest => if c = '\n' ∨ c = '\t' ∨ c = ' ' then skipLinesAndSpaces rest else c :: rest

/-- `parser::parseEOL` (ctrm.hpp lines 257-263): skip spaces, then accept end
of input, or consume one of `;`, newline, NUL; anything else is an error. -/
def parseEOL (s : List Char) : Except ParseErr (List Char) :=
  let s := skipSpaces s
  if s.isEmpty then .ok s
  else if s.headD CHAR0 = ';' ∨ s.headD CHAR0 = '\n' ∨ s.headD CHAR0 = CHAR0 then .ok (s.drop 1)
  else .error .missingTerminator

/-- Success condition of `parser::matchStr` (ctrm.hpp lines 189-203): every
character of `str` must lie strictly before the end of input and equal the
corresponding input character.  This is the value `matchStr` computes when all
of its reads are in bounds; the call sites consult it only when `matchStrOob`
is false. -/
def matchStrB (s : List Char) (str : List Char) : Bool :=
  (List.range str.length).all fun i =>
    decide (i ≠ s.length) && (s.getD i CHAR0 == str.getD i CHAR0)

/-- Out-of-bounds condition of `parser::matchStr` (ctrm.hpp lines 189-203):
the comparison loop has no early exit, and iteration `i` reads
`input[current + i]` whenever `current + i` differs from `end`; an iteration
with `current + i > end` therefore reads past the literal's terminating NUL,
which is not a constant expression, and compilation fails.  This happens
exactly when fewer than `str.length - 1` characters remain (the `i == end`
guard exempts only the position exactly at the end). -/
def matchStrOob (s : List Char) (str : List Char) : Bool :=
  decide (s.length + 1 < str.length)

/-- The characters of the `"HALT"` literal matched at ctrm.hpp line 343. -/
def haltChars : List Char := ['H', 'A', 'L', 'T']

/-- The characters of the `"->"` literal matched at ctrm.hpp line 318. -/
def arrowChars : List Char := ['-', '>']

/-- Optional `L<n>:` line prefix handling of one slot of `parser::parse`
(ctrm.hpp lines 284-295): if the slot starts with `L`, the parsed number must
equal the slot index `i`, then spaces, a colon, and more spaces are consumed. -/
def parseSlotPre (i : Nat) (s : List Char) : Except ParseErr (List Char) :=
  if s.headD CHAR0 = 'L' then
    match parseLineNumber s with
    | .error e => .error e
    | .ok (n, s1) =>
      if n = i then
        let s2 := skipSpaces s1
        if s2.isEmpty then .error .expectedColon
        else if s2.headD CHAR0 = ':' then .ok (skipSpaces (s2.drop 1))
        else .error .expectedColon
      else .error .lineNumberMismatch
  else .ok s

/-- Common tail of the register-statement branch of `parser::parse`
(ctrm.hpp lines 315-341): after the `+`/`-` operator, expect `->`, a target
line number, and for a decrement also a comma and a second target; finish with
the end-of-line check and build the instruction. -/
def afterOpInstr (isIncr : Bool) (reg : Nat) (s : List Char) :
    Except ParseErr (instruction × List Char) :=
  if matchStrOob s arrowChars then .error .outOfBoundsRead
  else if matchStrB s arrowChars then
    let s1 := skipSpaces (s.drop 2)
    match parseLineNumber s1 with
    | .error e => .error e
    | .ok (loc1, s2) =>
      if isIncr then
        match parseEOL s2 with
        | .error e => .error e
        | .ok s3 => .ok (incrInstr reg loc1, s3)
      else
        let s3 := skipSpaces s2
        if s3.headD CHAR0 = ',' then
          let s4 := skipSpaces (s3.drop 1)
          match parseLineNumber s4 with
          | .error e => .error e
          | .ok (loc2, s5) =>
            match parseEOL s5 with
            | .error e => .error e
            | .ok s6 => .ok (decrInstr reg loc1 loc2, s6)
        else .error .expectedComma
  else .error .expectedArrow

/-- The statement branches of one slot of `parser::parse` after the register
branch has been declined (ctrm.hpp lines 343-355): first the `HALT` literal is
tried — and its `matchStr` call reads past the end of the input when fewer
than three characters remain, aborting the evaluation — then a bare
terminator stores an implicit halt, and anything else is an error. -/
def parseSlotTail (s0 : List Char) : Except ParseErr (instruction × List Char) :=
  if matchStrOob s0 haltChars then .error .outOfBoundsRead
  else if matchStrB s0 haltChars then
    match parseEOL (s0.drop 4) with
    | .error e => .error e
    | .ok s1 => .ok (haltInstr, s1)
  else if s0.headD CHAR0 = ';' ∨ s0.headD CHAR0 = '\n' ∨ s0.headD CHAR0 = CHAR0 then
    .ok (haltInstr, s0.drop 1)
  else .error .unexpectedChars

/-- One slot of the `parser::parse` loop body (ctrm.hpp lines 284-355): the
optional line prefix, then a register statement, a `HALT` statement, a bare
terminator (an implicit halt), or an error. -/
def parseSlot (i : Nat) (s : List Char) : Except ParseErr (instruction × List Char) :=
  match parseSlotPre i s with
  | .error e => .error e
  | .ok s0 =>
    if ¬ s0.isEmpty ∧ s0.headD CHAR0 = 'R' then
      match parseInt (s0.drop 1) with
      | .error e => .error e
      | .ok (reg, s1) =>
        let s2 := skipSpaces s1
        if s2.headD CHAR0 = '+' then afterOpInstr true reg (skipSpaces (s2.drop 1))
        else if s2.headD CHAR0 = '-' then afterOpInstr false reg (skipSpaces (s2.drop 1))
        else .error .expectedPlusMinus
    else parseSlotTail s0

/-- The slot loop of `parser::parse` (ctrm.hpp lines 276-358): the output
array is default-initialised to halt instructions, so once the input is
exhausted the remaining slots stay `instruction{}`; otherwise each slot is
parsed and trailing newlines and spaces are skipped. -/
def parseLoop : Nat → Nat → List Char → Except ParseErr (List instruction)
  | _, 0, _ => .ok []
  | i, slots + 1, s =>
    if s.isEmpty then .ok (List.replicate (slots + 1) haltInstr)
    else
      match parseSlot i s with
      | .error e => .error e
      | .ok (ins, s1) =>
        match parseLoop (i + 1) slots (skipLinesAndSpaces s1) with
        | .error e => .error e
        | .ok rest => .ok (ins :: rest)

/-- `parser::parse` (ctrm.hpp lines 272-361): skip leading whitespace, then
fill `count` slots (the `instrCount` template parameter). -/
def parse (s : List Char) (count : Nat) : Except ParseErr (List instruction) :=
  parseLoop 0 count (skipLinesAndSpaces s)

/-- Register file of the state an `execStep` produced, or `[]` on an
out-of-bounds read (used to observe step results without binders). -/
def nextValues : stepResult → List Nat
  | .next s => s.values
  | .oob _ => []

/-- Program counter of the state an `execStep` produced (the offending
location on an out-of-bounds read). -/
def nextLoc : stepResult → Nat
  | .next s => s.loc
  | .oob l => l

/-- Whether an `execStep` produced a next state rather than an out-of-bounds
read. -/
def isNextB : stepResult → Bool
  | .next _ => true
  | .oob _ => false

/-- The `mode` enumeration local to `impl::getMaxArgs`
(ctrm.hpp lines 381-384). -/
inductive scanMode
  | SKIP
  | READ_LOC
  | READ_REG
deriving DecidableEq, Repr

/-- The character loop and final flush of `impl::getMaxArgs`
(ctrm.hpp lines 392-443): `L`/`R` switch the reading mode, digits accumulate
while the mode is not `SKIP`, and any other character commits a nonzero
accumulator to the matching running maximum and resets; at end of input the
pending accumulator is committed and `(maxReg + 1, maxLoc + 1)` is returned. -/
def getMaxArgsAux : List Char → scanMode → Nat → Nat → Nat → Nat × Nat
  | [], readInt, result, maxReg, maxLoc =>
    ((if readInt = .READ_REG ∧ maxReg < result then result else maxReg) + 1,
     (if readInt = .READ_LOC ∧ maxLoc < result then result else maxLoc) + 1)
  | c :: rest, readInt, result, maxReg, maxLoc =>
    if c = 'L' then getMaxArgsAux rest .READ_LOC result maxReg maxLoc
    else if c = 'R' then getMaxArgsAux rest .READ_REG result maxReg maxLoc
    else if c.isDigit then
      getMaxArgsAux rest readInt
        (if readInt ≠ .SKIP then (result * 10 % SIZE_T + (c.toNat - 48)) % SIZE_T else result)
        maxReg maxLoc
    else if result ≠ 0 then
      getMaxArgsAux rest .SKIP 0
        (if readInt = .READ_REG ∧ maxReg < result then result else maxReg)
        (if readInt = .READ_LOC ∧ maxLoc < result then result else maxLoc)
    else getMaxArgsAux rest readInt result maxReg maxLoc

/-- `impl::getMaxArgs` (ctrm.hpp lines 378-444). -/
def getMaxArgs (l : List Char) : Nat × Nat :=
  getMaxArgsAux l .SKIP 0 0 0

/-- Spec-side scanning state: which marker, if any, the digit run currently
being read immediately follows. -/
inductive markerState
  | noMarker
  | afterL
  | afterR
deriving DecidableEq, Repr

/-- Spec-side commit of a finished digit run into the running register
maximum. -/
def commitR (m : markerState) (acc mR : Nat) : Nat :=
  if m = .afterR then max mR acc else mR

/-- Spec-side commit of a finished digit run into the running line maximum. -/
def commitL (m : markerState) (acc mL : Nat) : Nat :=
  if m = .afterL then max mL acc else mL

/-- Scanner following the words of the specification (§4.1 auxiliary capacity
inference): track the running maximum digit-sequence value immediately
following each `R` or `L` marker, resetting at each non-digit delimiter, and
return `(max R + 1, max L + 1)`.  This is the reference definition the code
scanner `getMaxArgs` is compared against. -/
def specScanAux : List Char → markerState → Nat → Nat → Nat → Nat × Nat
  | [], m, acc, mR, mL => (commitR m acc mR + 1, commitL m acc mL + 1)
  | c :: rest, m, acc, mR, mL =>
    if c = 'L' then specScanAux rest .afterL 0 (commitR m acc mR) (commitL m acc mL)
    else if c = 'R' then specScanAux rest .afterR 0 (commitR m acc mR) (commitL m acc mL)
    else if c.isDigit then
      specScanAux rest m
        (if m ≠ .noMarker then (acc * 10 % SIZE_T + (c.toNat - 48)) % SIZE_T else acc) mR mL
    else specScanAux rest .noMarker 0 (commitR m acc mR) (commitL m acc mL)

/-- Spec-side scanner on a whole text. -/
def specScan (l : List Char) : Nat × Nat :=
  specScanAux l .noMarker 0 0 0

/-- The code-scanner mode corresponding to a spec-side marker state. -/
def modeOf : markerState → scanMode
  | .noMarker => .SKIP
  | .afterL => .READ_LOC
  | .afterR => .READ_REG

/-- Whether the previous character was a digit. -/
def prevDigit : Option Char → Bool
  | none => false
  | some p => p.isDigit

/-- Whether the previous character was a digit or an `L`/`R` marker. -/
def prevDM : Option Char → Bool
  | none => false
  | some p => p.isDigit || p == 'L' || p == 'R'

/-- Digit-placement discipline of well-formed program texts (grammar §4.1):
every digit is part of a run immediately following an `L` or `R` marker, and
no marker immediately follows a digit.  The parameter is the preceding
character, `none` at the start of the text. -/
def wfScanAux : Option Char → List Char → Bool
  | _, [] => true
  | prev, c :: rest =>
    (if c = 'L' ∨ c = 'R' then !prevDigit prev
     else if c.isDigit then prevDM prev
     else true) && wfScanAux (some c) rest

/-- Digit-placement discipline on a whole text. -/
def wfScan (l : List Char) : Bool :=
  wfScanAux none l

/-- The example program text of spec §6 (the addition machine, also the test
program of the repository's main functions). -/
def exText : List Char :=
  String.toList "L0: R1- -> L1, L2\nL1: R0+ -> L0\nL2: R2- -> L3, L4\nL3: R0+ -> L2\nL4: HALT"

/-- The instruction table the example program text parses to. -/
def exInstrs : List instruction :=
  [decrInstr 1 1 2, incrInstr 0 0, decrInstr 2 3 4, incrInstr 0 2, haltInstr]

/-- A text with six instruction lines, used to exercise capacity
truncation. -/
def text6 : List Char :=
  String.toList
    "L0: R0+ -> L1\nL1: R1+ -> L2\nL2: R2+ -> L3\nL3: R3+ -> L4\nL4: R4+ -> L5\nL5: HALT"

/-- The single-instruction fall-off program of spec §8 (zero-guard test). -/
def fallOffText : List Char := String.toList "L0: R0- -> L1, L1"

/-! ## Helper lemmas -/

theorem getD_set_self (l : List Nat) (i x : Nat) (h : i < l.length) :
    (l.set i x).getD i 0 = x := by
  induction l generalizing i with
  | nil => simp at h
  | cons a t ih =>
    cases i with
    | zero => simp [List.set, List.getD]
    | succ j =>
      simp only [List.set, List.getD_cons_succ]
      exact ih j (by simpa using h)

theorem getD_set_other (l : List Nat) (i j x : Nat) (h : i ≠ j) :
    (l.set i x).getD j 0 = l.getD j 0 := by
  induction l generalizing i j with
  | nil => simp [List.set]
  | cons a t ih =>
    cases i with
    | zero =>
      cases j with
      | zero => exact absurd rfl h
      | succ k => simp [List.set]
    | succ i2 =>
      cases j with
      | zero => simp [List.set]
      | succ k =>
        simp only [List.set, List.getD_cons_succ]
        exact ih i2 k (fun e => h (by rw [e]))

/-! ## Claim theorems -/

/-- Claim C1 (code bug): the spec requires that a program counter equal to
`instructionCount` (one past the end) acts as an implicit halt returning
register 0, and that the single-instruction program `L0: R0- -> L1, L1` with
register 0 initially 0 halts immediately.  The code checks
`if (loc > instrCount)` (ctrm.hpp line 136) — strictly greater — so at
`loc == instrCount` the loop continues and reads `instructions[instrCount]`,
one slot past the end of the table: the zero branch of the decrement jumps to
location 1 with the halt flag still false, and the next iteration performs the
out-of-bounds read instead of returning 0. -/
theorem C1_fall_off_reads_out_of_bounds :
    parse fallOffText 1 = .ok [decrInstr 0 1 1] ∧
    execStep 64 [decrInstr 0 1 1] ⟨[0], 0, false⟩ = .next ⟨[0], 1, false⟩ ∧
    exec 64 [decrInstr 0 1 1] [0] 1 10 = .oobRead 1 :=
  ⟨rfl, rfl, rfl⟩

/-- Claim C3: a Decrement step on a register holding a positive value stores
exactly that value minus one and transfers to `location1` (the `ifPositive`
target); on a register holding zero it leaves the register file entirely
unchanged and transfers to `location2` (the `ifZero` target), so unsigned
underflow never occurs (ctrm.hpp lines 123-134). -/
theorem C3_decrement_semantics (W : Nat) (instrs : List instruction) (s : execState)
    (cur : instruction) (hcur : instrs[s.loc]? = some cur) (hty : cur.type = .DECR)
    (hreg : cur.currentRegister < s.values.length) :
    isNextB (execStep W instrs s) = true ∧
    (0 < s.values.getD cur.currentRegister 0 →
      (nextValues (execStep W instrs s)).getD cur.currentRegister 0 =
        s.values.getD cur.currentRegister 0 - 1 ∧
      nextLoc (execStep W instrs s) = cur.location1) ∧
    (s.values.getD cur.currentRegister 0 = 0 →
      nextValues (execStep W instrs s) = s.values ∧
      nextLoc (execStep W instrs s) = cur.location2) := by
  obtain ⟨ty, reg, l1, l2⟩ := cur
  cases hty
  simp only [execStep, hcur]
  by_cases hv : 0 < s.values.getD reg 0
  · simp only [if_pos hv]
    refine ⟨rfl, fun _ => ⟨getD_set_self _ _ _ hreg, rfl⟩, fun h0 => absurd h0 (by omega)⟩
  · simp only [if_neg hv]
    exact ⟨rfl, fun h => absurd h hv, fun _ => ⟨rfl, rfl⟩⟩

/-- Claim C3 witness: concrete decrement steps, positive case on `[5]` and
zero case on `[0]`. -/
theorem C3_decrement_semantics_witness :
    (nextValues (execStep 64 [decrInstr 0 1 2] ⟨[5], 0, false⟩)).getD 0 0 =
      List.getD [5] 0 0 - 1 ∧
    nextLoc (execStep 64 [decrInstr 0 1 2] ⟨[5], 0, false⟩) = 1 ∧
    nextValues (execStep 64 [decrInstr 0 1 2] ⟨[0], 0, false⟩) = [0] ∧
    nextLoc (execStep 64 [decrInstr 0 1 2] ⟨[0], 0, false⟩) = 2 := by
  have h5 := C3_decrement_semantics 64 [decrInstr 0 1 2] ⟨[5], 0, false⟩
    (decrInstr 0 1 2) rfl rfl (by decide)
  have h0 := C3_decrement_semantics 64 [decrInstr 0 1 2] ⟨[0], 0, false⟩
    (decrInstr 0 1 2) rfl rfl (by decide)
  exact ⟨(h5.2.1 (by decide)).1, (h5.2.1 (by decide)).2,
         (h0.2.2 rfl).1, (h0.2.2 rfl).2⟩

/-- Claim C5: a slot that carries an `L<n>:` prefix whose number differs from
the slot's physical index is a hard parse error (ctrm.hpp lines 286-287), and
the concrete out-of-order text `L0: HALT` followed by `L2: HALT` fails to
parse. -/
theorem C5_line_number_mismatch :
    (∀ i rest n rest2, parseInt rest = .ok (n, rest2) → n ≠ i →
      parseSlot i ('L' :: rest) = .error .lineNumberMismatch) ∧
    parse (String.toList "L0: HALT\nL2: HALT") 2 = .error .lineNumberMismatch := by
  refine ⟨fun i rest n rest2 hint hne => ?_, rfl⟩
  simp [parseSlot, parseSlotPre, parseLineNumber, hint, hne]

/-- Claim C5 witness: slot index 1 facing the prefix `L2:`. -/
theorem C5_line_number_mismatch_witness :
    parseSlot 1 ('L' :: String.toList "2: HALT") = .error .lineNumberMismatch :=
  C5_line_number_mismatch.1 1 (String.toList "2: HALT") 2 (String.toList ": HALT")
    rfl (by decide)

/-- Claim C6: the malformed text `L0: R1+ L1`, whose increment statement lacks
the `->` token, is rejected with a parse error (the `error` call at
ctrm.hpp line 319 makes the consteval evaluation fail, so no program value is
produced). -/
theorem C6_missing_arrow_rejected :
    parse (String.toList "L0: R1+ L1") 1 = .error .expectedArrow :=
  rfl

/-- Claim C7 (amended): a slot whose statement is empty — the current
character is a bare terminator `;` or newline — stores an implicit halt
instruction and consumes exactly that character (ctrm.hpp lines 348-351),
provided at least two more characters follow the terminator; when at most one
character follows, the `matchStr("HALT")` call at ctrm.hpp line 343 reads past
the end of the input literal before the terminator branch is reached, the
consteval evaluation fails, and no halt instruction is stored. -/
theorem C7_empty_statement_halt :
    (∀ i (c : Char) rest, (c = ';' ∨ c = '\n') → 2 ≤ rest.length →
      parseSlot i (c :: rest) = .ok (haltInstr, rest)) ∧
    (∀ i (c : Char) rest, (c = ';' ∨ c = '\n') → rest.length ≤ 1 →
      parseSlot i (c :: rest) = .error .outOfBoundsRead) := by
  constructor
  · intro i c rest h hlen
    have hoob : matchStrOob (c :: rest) haltChars = false :=
      decide_eq_false (show ¬(rest.length + 1 + 1 < 4) from by omega)
    rcases h with rfl | rfl
    · show parseSlotTail (';' :: rest) = .ok (haltInstr, rest)
      simp only [parseSlotTail]
      rw [hoob]
      rfl
    · show parseSlotTail ('\n' :: rest) = .ok (haltInstr, rest)
      simp only [parseSlotTail]
      rw [hoob]
      rfl
  · intro i c rest h hlen
    have hoob : matchStrOob (c :: rest) haltChars = true :=
      decide_eq_true (show rest.length + 1 + 1 < 4 from by omega)
    rcases h with rfl | rfl
    · show parseSlotTail (';' :: rest) = .error .outOfBoundsRead
      simp only [parseSlotTail]
      rw [hoob]
      rfl
    · show parseSlotTail ('\n' :: rest) = .error .outOfBoundsRead
      simp only [parseSlotTail]
      rw [hoob]
      rfl

/-- Claim C7 counterexample: parsing the one-line text `;` — a line that
consists of only a terminator — stores no halt instruction: the
`matchStr("HALT")` comparison reads past the end of the one-character literal
and the consteval evaluation fails, so the claim as stated is false at this
input. -/
theorem C7_empty_statement_halt_counterexample :
    parse (String.toList ";") 1 = .error .outOfBoundsRead ∧
    parse (String.toList ";") 1 ≠ .ok [haltInstr] := by
  refine ⟨rfl, fun h => ?_⟩
  rw [show parse (String.toList ";") 1 = Except.error ParseErr.outOfBoundsRead from rfl] at h
  cases h

/-- Claim C7 witness: a `;` slot with four characters of input after it
stores the implicit halt and consumes one character, while a `;` slot at the
very end of the input dies with the out-of-bounds read. -/
theorem C7_empty_statement_halt_witness :
    parseSlot 0 (';' :: String.toList "HALT") = .ok (haltInstr, String.toList "HALT") ∧
    parseSlot 5 [';'] = .error .outOfBoundsRead :=
  ⟨C7_empty_statement_halt.1 0 ';' (String.toList "HALT") (Or.inl rfl) (by decide),
   C7_empty_statement_halt.2 5 ';' [] (Or.inl rfl) (by decide)⟩

/-- Claim C9: the instruction array of `parser::parse` is default-initialised,
and `instruction`'s default constructor is the halt instruction
(ctrm.hpp lines 67-73, 276), so when the input is exhausted every remaining
slot of the loop comes back as a halt instruction; and the executor, on
reaching a slot holding a halt instruction, terminates normally returning
register 0. -/
theorem C9_unfilled_slots_halt :
    (∀ i slots, parseLoop i slots [] = .ok (List.replicate slots haltInstr)) ∧
    (∀ W instrs (s : execState) fuel, instrs[s.loc]? = some haltInstr → s.halt = false →
      execLoop W instrs (fuel + 2) s = .ok (s.values.getD 0 0)) := by
  constructor
  · intro i slots
    cases slots <;> rfl
  · intro W instrs s fuel hf hh
    show (if s.halt then _ else _) = _
    rw [hh]
    simp only [Bool.false_eq_true, if_false, execStep, hf]
    rfl

/-- Claim C9 witness: two unfilled slots at exhausted input, and execution of
a machine sitting on a halt slot. -/
theorem C9_unfilled_slots_halt_witness :
    parseLoop 0 2 [] = .ok [haltInstr, haltInstr] ∧
    execLoop 64 [haltInstr] 2 ⟨[7], 0, false⟩ = .ok 7 :=
  ⟨C9_unfilled_slots_halt.1 0 2,
   C9_unfilled_slots_halt.2 64 [haltInstr] ⟨[7], 0, false⟩ 0 rfl rfl⟩

/-- Claim C10: every executor step that yields a next state leaves every
register other than the one named by the current instruction unchanged; a
halt step, and a decrement step taken on a zero-valued register, leave the
whole register file unchanged (ctrm.hpp lines 110-139; the instruction table
itself is a `const` array the loop only reads, which the embedding reflects by
passing it as an immutable parameter). -/
theorem C10_step_frame (W : Nat) (instrs : List instruction) (s : execState)
    (cur : instruction) (hcur : instrs[s.loc]? = some cur) :
    (∀ j, j ≠ cur.currentRegister →
      (nextValues (execStep W instrs s)).getD j 0 = s.values.getD j 0) ∧
    (cur.type = .HALT → nextValues (execStep W instrs s) = s.values) ∧
    (cur.type = .DECR → s.values.getD cur.currentRegister 0 = 0 →
      nextValues (execStep W instrs s) = s.values) := by
  obtain ⟨ty, reg, l1, l2⟩ := cur
  simp only [execStep, hcur]
  cases ty with
  | HALT => exact ⟨fun j _ => rfl, fun _ => rfl, by simp⟩
  | INCR =>
    refine ⟨fun j hj => ?_, by simp, by simp⟩
    exact getD_set_other _ _ _ _ (fun e => hj e.symm)
  | DECR =>
    by_cases hv : 0 < s.values.getD reg 0
    · simp only [if_pos hv]
      refine ⟨fun j hj => getD_set_other _ _ _ _ (fun e => hj e.symm), by simp, ?_⟩
      intro _ h0
      omega
    · simp only [if_neg hv]
      exact ⟨fun j _ => rfl, by simp, fun _ _ => rfl⟩

/-- Claim C10 witness: an increment step on register 0 leaves register 1
unchanged, and a halt step leaves the whole register file unchanged. -/
theorem C10_step_frame_witness :
    (nextValues (execStep 64 [incrInstr 0 3] ⟨[7, 9], 0, false⟩)).getD 1 0 =
      List.getD [7, 9] 1 0 ∧
    nextValues (execStep 64 [haltInstr] ⟨[7, 9], 0, false⟩) = [7, 9] :=
  ⟨(C10_step_frame 64 [incrInstr 0 3] ⟨[7, 9], 0, false⟩ (incrInstr 0 3) rfl).1 1
     (by decide),
   (C10_step_frame 64 [haltInstr] ⟨[7, 9], 0, false⟩ haltInstr rfl).2.1 rfl⟩

theorem parseLoop_cons (i k : Nat) (ch : Char) (t : List Char) :
    parseLoop i (k + 1) (ch :: t) =
      match parseSlot i (ch :: t) with
      | .error e => .error e
      | .ok (ins, s1) =>
        match parseLoop (i + 1) k (skipLinesAndSpaces s1) with
        | .error e => .error e
        | .ok rest => .ok (ins :: rest) := rfl

theorem parseLoop_take (slots : Nat) :
    ∀ extra i s l, parseLoop i (slots + extra) s = .ok l →
      parseLoop i slots s = .ok (l.take slots) := by
  induction slots with
  | zero => intro extra i s l _; rfl
  | succ n ih =>
    intro extra i s l h
    rw [show n + 1 + extra = n + extra + 1 from by omega] at h
    cases s with
    | nil =>
      have h2 : Except.ok (ε := ParseErr) (List.replicate (n + extra + 1) haltInstr) =
          Except.ok l := h
      injection h2 with h3
      subst h3
      have h4 : parseLoop i (n + 1) ([] : List Char) =
          .ok (List.replicate (n + 1) haltInstr) := rfl
      rw [h4, List.take_replicate, show min (n + 1) (n + extra + 1) = n + 1 from by omega]
    | cons ch t =>
      rw [parseLoop_cons] at h
      rw [parseLoop_cons]
      cases hslot : parseSlot i (ch :: t) with
      | error e =>
        rw [hslot] at h
        have h2 : (Except.error e : Except ParseErr (List instruction)) = .ok l := h
        cases h2
      | ok p =>
        obtain ⟨ins, s1⟩ := p
        rw [hslot] at h
        have h2 : (match parseLoop (i + 1) (n + extra) (skipLinesAndSpaces s1) with
            | .error e => (Except.error e : Except ParseErr (List instruction))
            | .ok rest => .ok (ins :: rest)) = .ok l := h
        cases hrest : parseLoop (i + 1) (n + extra) (skipLinesAndSpaces s1) with
        | error e =>
          rw [hrest] at h2
          have h3 : (Except.error e : Except ParseErr (List instruction)) = .ok l := h2
          cases h3
        | ok rest =>
          rw [hrest] at h2
          have h3 : Except.ok (ε := ParseErr) (ins :: rest) = .ok l := h2
          injection h3 with h4
          subst h4
          show (match parseLoop (i + 1) n (skipLinesAndSpaces s1) with
            | .error e => (Except.error e : Except ParseErr (List instruction))
            | .ok rest => .ok (ins :: rest)) = .ok ((ins :: rest).take (n + 1))
          rw [ih extra (i + 1) (skipLinesAndSpaces s1) rest hrest]
          rfl

/-- Claim C4: parsing with a capacity smaller than the number of instruction
lines succeeds and yields exactly the first `n` parsed instructions, the
trailing lines being ignored — the slot loop of `parser::parse`
(ctrm.hpp line 282) stops as soon as `capacity` slots are filled and never
reads further, so the capacity-`n` parse of any text whose capacity-`m` parse
succeeds (`n ≤ m`) is the `n`-prefix of the larger parse. -/
theorem C4_capacity_truncation (s : List Char) (n m : Nat) (l : List instruction)
    (hnm : n ≤ m) (h : parse s m = .ok l) :
    parse s n = .ok (l.take n) := by
  obtain ⟨extra, rfl⟩ := Nat.le.dest hnm
  exact parseLoop_take n extra 0 (skipLinesAndSpaces s) l h

/-- Claim C4 witness: the six-instruction text parsed at capacity 3 yields
exactly its first three instructions. -/
theorem C4_capacity_truncation_witness :
    parse text6 3 = .ok [incrInstr 0 1, incrInstr 1 2, incrInstr 2 3] :=
  C4_capacity_truncation text6 3 6
    [incrInstr 0 1, incrInstr 1 2, incrInstr 2 3, incrInstr 3 4, incrInstr 4 5, haltInstr]
    (by decide) rfl

theorem execLoop_step (W : Nat) (instrs : List instruction) (fuel : Nat) (vals : List Nat)
    (loc : Nat) :
    execLoop W instrs (fuel + 1) ⟨vals, loc, false⟩ =
      match execStep W instrs ⟨vals, loc, false⟩ with
      | .oob l => .oobRead l
      | .next s2 => execLoop W instrs fuel s2 := rfl

theorem step_L0_pos (W a b c : Nat) :
    execStep W exInstrs ⟨[a, b + 1, c], 0, false⟩ = .next ⟨[a, b, c], 1, false⟩ := by
  simp [execStep, exInstrs, decrInstr, incrInstr, haltInstr]

theorem step_L0_zero (W a c : Nat) :
    execStep W exInstrs ⟨[a, 0, c], 0, false⟩ = .next ⟨[a, 0, c], 2, false⟩ := by
  simp [execStep, exInstrs, decrInstr, incrInstr, haltInstr]

theorem step_L1 (W a b c : Nat) :
    execStep W exInstrs ⟨[a, b, c], 1, false⟩ =
      .next ⟨[(a + 1) % 2 ^ W, b, c], 0, false⟩ := by
  simp [execStep, exInstrs, decrInstr, incrInstr, haltInstr]

theorem step_L2_pos (W a b c : Nat) :
    execStep W exInstrs ⟨[a, b, c + 1], 2, false⟩ = .next ⟨[a, b, c], 3, false⟩ := by
  simp [execStep, exInstrs, decrInstr, incrInstr, haltInstr]

theorem step_L2_zero (W a b : Nat) :
    execStep W exInstrs ⟨[a, b, 0], 2, false⟩ = .next ⟨[a, b, 0], 4, false⟩ := by
  simp [execStep, exInstrs, decrInstr, incrInstr, haltInstr]

theorem step_L3 (W a b c : Nat) :
    execStep W exInstrs ⟨[a, b, c], 3, false⟩ =
      .next ⟨[(a + 1) % 2 ^ W, b, c], 2, false⟩ := by
  simp [execStep, exInstrs, decrInstr, incrInstr, haltInstr]

theorem exec_phase1 (W : Nat) (b : Nat) :
    ∀ a c fuel, a < 2 ^ W →
      execLoop W exInstrs (2 * b + fuel + 1) ⟨[a, b, c], 0, false⟩ =
      execLoop W exInstrs fuel ⟨[(a + b) % 2 ^ W, 0, c], 2, false⟩ := by
  induction b with
  | zero =>
    intro a c fuel ha
    rw [show 2 * 0 + fuel + 1 = fuel + 1 from by omega,
        show (a + 0) % 2 ^ W = a from by rw [Nat.add_zero]; exact Nat.mod_eq_of_lt ha,
        execLoop_step, step_L0_zero]
  | succ n ih =>
    intro a c fuel ha
    rw [show 2 * (n + 1) + fuel + 1 = 2 * n + fuel + 1 + 1 + 1 from by omega,
        execLoop_step, step_L0_pos]
    show execLoop W exInstrs (2 * n + fuel + 1 + 1) ⟨[a, n, c], 1, false⟩ = _
    rw [execLoop_step, step_L1]
    show execLoop W exInstrs (2 * n + fuel + 1) ⟨[(a + 1) % 2 ^ W, n, c], 0, false⟩ = _
    rw [ih ((a + 1) % 2 ^ W) c fuel (Nat.mod_lt _ (Nat.two_pow_pos W)),
        show ((a + 1) % 2 ^ W + n) % 2 ^ W = (a + (n + 1)) % 2 ^ W from by
          rw [Nat.mod_add_mod]; congr 1; omega]

theorem exec_phase2 (W : Nat) (c : Nat) :
    ∀ a b fuel, a < 2 ^ W →
      execLoop W exInstrs (2 * c + fuel + 1) ⟨[a, b, c], 2, false⟩ =
      execLoop W exInstrs fuel ⟨[(a + c) % 2 ^ W, b, 0], 4, false⟩ := by
  induction c with
  | zero =>
    intro a b fuel ha
    rw [show 2 * 0 + fuel + 1 = fuel + 1 from by omega,
        show (a + 0) % 2 ^ W = a from by rw [Nat.add_zero]; exact Nat.mod_eq_of_lt ha,
        execLoop_step, step_L2_zero]
  | succ n ih =>
    intro a b fuel ha
    rw [show 2 * (n + 1) + fuel + 1 = 2 * n + fuel + 1 + 1 + 1 from by omega,
        execLoop_step, step_L2_pos]
    show execLoop W exInstrs (2 * n + fuel + 1 + 1) ⟨[a, b, n], 3, false⟩ = _
    rw [execLoop_step, step_L3]
    show execLoop W exInstrs (2 * n + fuel + 1) ⟨[(a + 1) % 2 ^ W, b, n], 2, false⟩ = _
    rw [ih ((a + 1) % 2 ^ W) b fuel (Nat.mod_lt _ (Nat.two_pow_pos W)),
        show ((a + 1) % 2 ^ W + n) % 2 ^ W = (a + (n + 1)) % 2 ^ W from by
          rw [Nat.mod_add_mod]; congr 1; omega]

theorem exec_halt_slot4 (W : Nat) (vals : List Nat) (fuel : Nat) :
    execLoop W exInstrs (fuel + 2) ⟨vals, 4, false⟩ = .ok (vals.getD 0 0) :=
  rfl

/-- Claim C2 (amended): executing the five-instruction example program with
register 0 initially 0 terminates and returns in register 0 the sum of the
initial values of registers 1 and 2 reduced modulo 2^W, the modulus of the
chosen unsigned register type; this equals the exact sum whenever it is
representable, and in particular the initial values (0, 3, 5) return 8.  The
fuel `2*r1 + 2*r2 + 4` counts the loop iterations the program needs, and any
additional fuel is harmless. -/
theorem C2_example_program_adds (W r1 r2 extra : Nat) (h1 : r1 < 2 ^ W)
    (h2 : r2 < 2 ^ W) :
    parse exText 5 = .ok exInstrs ∧
    exec W exInstrs [0, r1, r2] 3 (2 * r1 + 2 * r2 + 4 + extra) =
      .ok ((r1 + r2) % 2 ^ W) := by
  refine ⟨rfl, ?_⟩
  show execLoop W exInstrs _ ⟨initRegs W [0, r1, r2] 3, 0, false⟩ = _
  have hv : initRegs W [0, r1, r2] 3 = [0, r1, r2] := by
    simp [initRegs, Nat.mod_eq_of_lt h1, Nat.mod_eq_of_lt h2]
  rw [hv, show 2 * r1 + 2 * r2 + 4 + extra = 2 * r1 + (2 * r2 + (extra + 2) + 1) + 1 from
        by omega,
      exec_phase1 W r1 0 r2 (2 * r2 + (extra + 2) + 1) (Nat.two_pow_pos W),
      show (0 + r1) % 2 ^ W = r1 from by rw [Nat.zero_add]; exact Nat.mod_eq_of_lt h1,
      exec_phase2 W r2 r1 0 (extra + 2) h1, exec_halt_slot4]
  rfl

/-- Claim C2 witness: the example program with the 64-bit register type and
initial values (0, 3, 5) returns 8. -/
theorem C2_example_program_adds_witness :
    exec 64 exInstrs [0, 3, 5] 3 20 = .ok 8 :=
  (C2_example_program_adds 64 3 5 0 (by decide) (by decide)).2

theorem getMaxArgsAux_nil (mc : scanMode) (result mR mL : Nat) :
    getMaxArgsAux [] mc result mR mL =
      ((if mc = .READ_REG ∧ mR < result then result else mR) + 1,
       (if mc = .READ_LOC ∧ mL < result then result else mL) + 1) := rfl

theorem getMaxArgsAux_cons (c : Char) (rest : List Char) (mc : scanMode)
    (result mR mL : Nat) :
    getMaxArgsAux (c :: rest) mc result mR mL =
      if c = 'L' then getMaxArgsAux rest .READ_LOC result mR mL
      else if c = 'R' then getMaxArgsAux rest .READ_REG result mR mL
      else if c.isDigit then
        getMaxArgsAux rest mc
          (if mc ≠ .SKIP then (result * 10 % SIZE_T + (c.toNat - 48)) % SIZE_T else result)
          mR mL
      else if result ≠ 0 then
        getMaxArgsAux rest .SKIP 0
          (if mc = .READ_REG ∧ mR < result then result else mR)
          (if mc = .READ_LOC ∧ mL < result then result else mL)
      else getMaxArgsAux rest mc result mR mL := rfl

theorem specScanAux_nil (m : markerState) (result mR mL : Nat) :
    specScanAux [] m result mR mL = (commitR m result mR + 1, commitL m result mL + 1) := rfl

theorem specScanAux_cons (c : Char) (rest : List Char) (m : markerState)
    (result mR mL : Nat) :
    specScanAux (c :: rest) m result mR mL =
      if c = 'L' then specScanAux rest .afterL 0 (commitR m result mR) (commitL m result mL)
      else if c = 'R' then
        specScanAux rest .afterR 0 (commitR m result mR) (commitL m result mL)
      else if c.isDigit then
        specScanAux rest m
          (if m ≠ .noMarker then (result * 10 % SIZE_T + (c.toNat - 48)) % SIZE_T else result)
          mR mL
      else specScanAux rest .noMarker 0 (commitR m result mR) (commitL m result mL) := rfl

theorem wfScanAux_cons (prev : Option Char) (c : Char) (rest : List Char) :
    wfScanAux prev (c :: rest) =
      ((if c = 'L' ∨ c = 'R' then !prevDigit prev
        else if c.isDigit then prevDM prev
        else true) && wfScanAux (some c) rest) := rfl

theorem prevDigit_some (c : Char) : prevDigit (some c) = c.isDigit := rfl

theorem prevDM_some (c : Char) : prevDM (some c) = (c.isDigit || c == 'L' || c == 'R') := rfl

theorem prevDM_of_digit (prev : Option Char) (h : prevDigit prev = true) :
    prevDM prev = true := by
  cases prev with
  | none => exact Bool.noConfusion h
  | some p =>
    have hp : p.isDigit = true := h
    simp [prevDM_some, hp]

theorem max_flush_if (a b : Nat) : (if a < b then b else a) = max a b := by
  rcases Nat.lt_or_ge a b with h | h
  · rw [if_pos h, Nat.max_eq_right h.le]
  · rw [if_neg (by omega), Nat.max_eq_left h]

theorem flushR_eq (m : markerState) (result mR : Nat) :
    (if modeOf m = scanMode.READ_REG ∧ mR < result then result else mR) =
      commitR m result mR := by
  cases m <;> simp [modeOf, commitR, max_flush_if]

theorem flushL_eq (m : markerState) (result mL : Nat) :
    (if modeOf m = scanMode.READ_LOC ∧ mL < result then result else mL) =
      commitL m result mL := by
  cases m <;> simp [modeOf, commitL, max_flush_if]

theorem commitR_zero (m : markerState) (mR : Nat) : commitR m 0 mR = mR := by
  cases m <;> simp [commitR]

theorem commitL_zero (m : markerState) (mL : Nat) : commitL m 0 mL = mL := by
  cases m <;> simp [commitL]

theorem scanAgreeAux (l : List Char) :
    ∀ (prev : Option Char) (mc : scanMode) (m : markerState) (result mR mL : Nat),
      wfScanAux prev l = true →
      (prevDM prev = true → mc = modeOf m) →
      (prevDigit prev = false → result = 0) →
      getMaxArgsAux l mc result mR mL = specScanAux l m result mR mL := by
  induction l with
  | nil =>
    intro prev mc m result mR mL _ h2 h3
    rw [getMaxArgsAux_nil, specScanAux_nil]
    by_cases hp : prevDigit prev = true
    · rw [h2 (prevDM_of_digit prev hp), flushR_eq, flushL_eq]
    · have h0 : result = 0 := h3 (by revert hp; cases prevDigit prev <;> simp)
      subst h0
      simp [commitR, commitL]
  | cons c rest ih =>
    intro prev mc m result mR mL hwf h2 h3
    rw [wfScanAux_cons, Bool.and_eq_true] at hwf
    obtain ⟨hcond, hrest⟩ := hwf
    rw [getMaxArgsAux_cons, specScanAux_cons]
    by_cases hL : c = 'L'
    · subst hL
      rw [if_pos (Or.inl rfl)] at hcond
      have hnd : prevDigit prev = false := by revert hcond; cases prevDigit prev <;> simp
      have h0 : result = 0 := h3 hnd
      subst h0
      rw [if_pos rfl, if_pos rfl, commitR_zero, commitL_zero]
      exact ih (some 'L') .READ_LOC .afterL 0 mR mL hrest (fun _ => rfl) (fun _ => rfl)
    · by_cases hR : c = 'R'
      · subst hR
        rw [if_pos (Or.inr rfl)] at hcond
        have hnd : prevDigit prev = false := by revert hcond; cases prevDigit prev <;> simp
        have h0 : result = 0 := h3 hnd
        subst h0
        rw [if_neg hL, if_neg hL, if_pos rfl, if_pos rfl, commitR_zero, commitL_zero]
        exact ih (some 'R') .READ_REG .afterR 0 mR mL hrest (fun _ => rfl) (fun _ => rfl)
      · rw [if_neg (by tauto)] at hcond
        rw [if_neg hL, if_neg hL, if_neg hR, if_neg hR]
        by_cases hD : c.isDigit = true
        · rw [if_pos hD] at hcond
          have hmc : mc = modeOf m := h2 hcond
          subst hmc
          rw [if_pos hD, if_pos hD,
              show (if modeOf m ≠ scanMode.SKIP
                      then (result * 10 % SIZE_T + (c.toNat - 48)) % SIZE_T else result) =
                   (if m ≠ markerState.noMarker
                      then (result * 10 % SIZE_T + (c.toNat - 48)) % SIZE_T else result) from
                by cases m <;> rfl]
          refine ih (some c) (modeOf m) m _ mR mL hrest (fun _ => rfl) (fun hpd => ?_)
          rw [prevDigit_some, hD] at hpd
          exact Bool.noConfusion hpd
        · have hD2 : c.isDigit = false := by revert hD; cases c.isDigit <;> simp
          have hDM : prevDM (some c) = false := by
            simp [prevDM_some, hD2, hL, hR]
          rw [if_neg hD, if_neg hD]
          by_cases hres : result = 0
          · subst hres
            rw [if_neg (show ¬(0 : Nat) ≠ 0 from fun hq => hq rfl),
                commitR_zero, commitL_zero]
            refine ih (some c) mc .noMarker 0 mR mL hrest (fun hdm => ?_) (fun _ => rfl)
            rw [hDM] at hdm
            exact Bool.noConfusion hdm
          · have hpd : prevDigit prev = true := by
              cases hq : prevDigit prev
              · exact absurd (h3 hq) hres
              · rfl
            have hmc : mc = modeOf m := h2 (prevDM_of_digit prev hpd)
            subst hmc
            rw [if_pos hres, flushR_eq, flushL_eq]
            exact ih (some c) .SKIP .noMarker 0 _ _ hrest
              (fun hdm => by rw [hDM] at hdm; exact Bool.noConfusion hdm) (fun _ => rfl)

/-- Claim C8: on every text obeying the digit-placement discipline of
well-formed programs (every digit run immediately follows its `L`/`R` marker
and no marker directly follows a digit — which the grammar of §4.1
guarantees, since integers appear only as `L<n>` and `R<n>`), the capacity
scanner `getMaxArgs` returns exactly the pair
`(1 + max digit run after an R marker, 1 + max digit run after an L marker)`
computed by the specification-worded scanner `specScan` — the
`(registerCount, instructionCount)` capacities the parse requires — and it
performs no syntax validation (it is a total function on arbitrary text). -/
theorem C8_scan_matches_spec (l : List Char) (h : wfScan l = true) :
    getMaxArgs l = specScan l :=
  scanAgreeAux l none .SKIP .noMarker 0 0 0 h (fun _ => rfl) (fun _ => rfl)

/-- Claim C8 witness: the example program text satisfies the discipline, the
code scanner agrees with the specification scanner on it, and both return
`(3, 5)` — the capacities the example program is compiled with. -/
theorem C8_scan_matches_spec_witness :
    wfScan exText = true ∧ getMaxArgs exText = specScan exText ∧
      getMaxArgs exText = (3, 5) :=
  ⟨by decide, C8_scan_matches_spec exText (by decide), by decide⟩

set_option maxRecDepth 40000 in
/-- Claim C2 counterexample: with the 8-bit unsigned register type
(`unsigned char`, a valid `IntType`), initial values 200 and 100 make the
increments wrap, and the program returns 44 — not the sum 300 — so the claim
as stated does not hold for every pair of initial values. -/
theorem C2_example_program_adds_counterexample :
    exec 8 exInstrs [0, 200, 100] 3 604 = .ok 44 ∧
    execOutcome.ok 44 ≠ .ok (200 + 100) :=
  ⟨by rfl, by decide⟩

end Ctrm
